import Mathlib

/-!
Shallow embedding of the parsing/evaluation kernel of the Jeqyll template
engine (files `src/liquid/context.hpp`, `src/liquid/blockbody.cpp`,
`src/liquid/tags/if.hpp`), together with theorems checking the spec's
claims against it.

Modelling conventions:
* `QHash<QString, Context>` is modelled as an association list
  `List (String × Context)` with unique-key lookup (first match); `QList`
  as `List`; `QString` as `String`.
* C++ `double` is modelled as `Rat`; no claim below depends on IEEE-754
  rounding or NaN behaviour, only on the variant tags of numeric values.
* C++ `int` is modelled as `Int`; no claim below depends on 32-bit
  overflow.
* Functions that can `throw` are modelled as returning `Option`/`Except`,
  with `none`/`.error` standing for a raised exception.
-/

namespace Liquid

/-- The variant tag of a runtime value, mirroring `Context::Type` in
`context.hpp`. -/
inductive CType where
  | hash
  | array
  | string
  | numberInt
  | numberFloat
  | booleanTrue
  | booleanFalse
  | nil
deriving DecidableEq, Repr

/-- The runtime variant value, mirroring class `Context` in `context.hpp`:
exactly one of Nil, BooleanTrue, BooleanFalse, NumberInt, NumberFloat,
String, Array, Hash. -/
inductive Context where
  | nil
  | boolTrue
  | boolFalse
  | numberInt (i : Int)
  | numberFloat (f : Rat)
  | string (s : String)
  | array (elements : List Context)
  | hash (entries : List (String × Context))

/-- `Context::type()`. -/
def Context.typeOf : Context → CType
  | .nil => .nil
  | .boolTrue => .booleanTrue
  | .boolFalse => .booleanFalse
  | .numberInt _ => .numberInt
  | .numberFloat _ => .numberFloat
  | .string _ => .string
  | .array _ => .array
  | .hash _ => .hash

/-- `Context::isHash()`. -/
def Context.isHash (c : Context) : Bool :=
  c.typeOf == .hash

/-- `Context::isArray()`. -/
def Context.isArray (c : Context) : Bool :=
  c.typeOf == .array

/-- `Context::isNil()`. -/
def Context.isNil (c : Context) : Bool :=
  c.typeOf == .nil

/-- `Context::isTruthy()`: false for the `Nil` and `BooleanFalse` variants,
true for every other variant. -/
def Context.isTruthy : Context → Bool
  | .nil => false
  | .boolFalse => false
  | _ => true

/-- `QHash::find`: the hash has unique keys, so lookup returns the first
(only) entry with the given key, or none. -/
def hashFind : List (String × Context) → String → Option Context
  | [], _ => none
  | (k, v) :: rest, key => if k == key then some v else hashFind rest key

/-- `Context::push_back`: appends to the array payload when the value is an
Array, and does nothing otherwise. -/
def Context.push_back (c : Context) (v : Context) : Context :=
  if c.isArray then
    match c with
    | .array elements => .array (elements ++ [v])
    | _ => c
  else
    c

/-- `Context::size()`: entry count for Hash, element count for Array,
character count for String, 0 otherwise. -/
def Context.size : Context → Nat
  | .hash entries => entries.length
  | .array elements => elements.length
  | .string s => s.length
  | _ => 0

/-- `Context::toString()`: `"true"`/`"false"` for booleans, decimal text for
numbers, the string payload for String, and the default-constructed (empty)
string member for every other variant. Number formatting abstracts
`QString::number`. -/
def Context.toString : Context → String
  | .boolTrue => "true"
  | .boolFalse => "false"
  | .numberInt i => ToString.toString i
  | .numberFloat f => ToString.toString f
  | .string s => s
  | _ => ""

/-- `Context::toFloat()`: the numeric payload for numbers, 0 otherwise. -/
def Context.toFloat : Context → Rat
  | .numberInt i => (i : Rat)
  | .numberFloat f => f
  | _ => 0

mutual

/-- `Context::operator==`: values of different variants are unequal; values
of the same variant compare their payloads (booleans and nil carry none). -/
def Context.ceq : Context → Context → Bool
  | .nil, .nil => true
  | .boolTrue, .boolTrue => true
  | .boolFalse, .boolFalse => true
  | .numberInt a, .numberInt b => a == b
  | .numberFloat a, .numberFloat b => a == b
  | .string a, .string b => a == b
  | .array a, .array b => Context.ceqList a b
  | .hash a, .hash b => Context.ceqEntries a b
  | _, _ => false

/-- Element-wise equality of array payloads (`QList::operator==`). -/
def Context.ceqList : List Context → List Context → Bool
  | [], [] => true
  | x :: xs, y :: ys => Context.ceq x y && Context.ceqList xs ys
  | _, _ => false

/-- Entry-wise equality of hash payloads (`QHash::operator==` on the
association-list model). -/
def Context.ceqEntries : List (String × Context) → List (String × Context) → Bool
  | [], [] => true
  | (k1, v1) :: xs, (k2, v2) :: ys =>
    k1 == k2 && Context.ceq v1 v2 && Context.ceqEntries xs ys
  | _, _ => false

end

/-- Modelled from the spec: the parsed expression type. `expression.hpp` is
not among the provided sources; per the spec's data model an Expression is
`Literal(Context value) | LookupKey(name) | Lookup(ordered children)`, and
the grammar produces Lookup children that are only LookupKey (static name,
including static numeric/string subscripts) or nested Lookup (computed
subscript) — never Literal. The constructor set below is the spec's; the
shape invariant on Lookup children is `Expression.shaped` further down. -/
inductive Expression where
  | literal (v : Context)
  | lookupKey (name : String)
  | lookup (children : List Expression)

/-- `Expression::isLookup()`. -/
def Expression.isLookup : Expression → Bool
  | .lookup _ => true
  | _ => false

/-- `Expression::isLookupKey()`. -/
def Expression.isLookupKey : Expression → Bool
  | .lookupKey _ => true
  | _ => false

mutual

/-- The spec's shape invariant on parser-produced lookup expressions: a
LookupKey, or a Lookup all of whose children are themselves shaped. A
Literal is not lookup-shaped. -/
def Expression.shaped : Expression → Bool
  | .literal _ => false
  | .lookupKey _ => true
  | .lookup children => Expression.shapedList children

/-- Shape invariant for a list of lookup children. -/
def Expression.shapedList : List Expression → Bool
  | [] => true
  | e :: rest => Expression.shaped e && Expression.shapedList rest

end

mutual

/-- `Context::evaluate` (context.hpp lines 274-296). A LookupKey is looked
up in the hash payload when the receiver is a Hash (absent key falls
through to Nil) and yields Nil on any non-Hash receiver; a Lookup walks its
children, narrowing the current context one step at a time and returning
Nil as soon as a step yields Nil; any other expression kind throws
(modelled as `none`). -/
def Context.evaluate (c : Context) : Expression → Option Context
  | .lookupKey key =>
    match c with
    | .hash entries =>
      match hashFind entries key with
      | some result => some result
      | none => some .nil
    | _ => some .nil
  | .lookup children => Context.evalSteps c children
  | .literal _ => none

/-- The `for (const auto& lookup : expression.lookups())` walk inside
`Context::evaluate`: evaluate each child against the current context,
short-circuiting to Nil the moment a step yields Nil, and propagating a
thrown exception (`none`) from any step. -/
def Context.evalSteps (c : Context) : List Expression → Option Context
  | [] => some c
  | e :: rest =>
    match Context.evaluate c e with
    | none => none
    | some result => if result.isNil then some result else Context.evalSteps result rest

end

/-- `Condition::Operator` (if.hpp lines 11-20). -/
inductive Operator where
  | none
  | equal
  | notEqual
  | lessThan
  | greaterThan
  | greaterOrEqualThan
  | lessOrEqualThan
  | contains
deriving DecidableEq, Repr

/-- `Condition::LogicalOperator` restricted to the two values that ever
accompany a non-null child: `And` and `Or`. In if.hpp the node stores
`logicalOp_ = None` together with a null `child_` until
`setLogicalCondition` sets both at once; the model fuses that pair of
fields into a single `Option (LogicalOperator × Condition)`. -/
inductive LogicalOperator where
  | and
  | or
deriving DecidableEq, Repr

/-- `class Condition` (if.hpp lines 9-62): a comparison `a_ op_ b_` plus an
optional logical continuation `(logicalOp_, child_)`. `b_` is `Option`
because the one-expression constructor leaves it default-constructed and
`op_ = None` never reads it. -/
inductive Condition where
  | mk (a : Expression) (op : Operator) (b : Option Expression)
      (chain : Option (LogicalOperator × Condition))

/-- `Condition::setLogicalCondition` (if.hpp lines 50-53): stores the
logical operator and the child condition, leaving the comparison fields
untouched. -/
def Condition.setLogicalCondition : Condition → LogicalOperator → Condition → Condition
  | .mk a op b _, lop, child => .mk a op b (some (lop, child))

/-- Modelled from the spec: expression evaluation as used by the condition
engine (`if.cpp` and `expression.hpp` are not among the provided sources).
A Literal yields its wrapped Context value directly; anything else is the
context lookup `Context::evaluate`, whose structural fault is propagated
as `none`. -/
def Expression.evaluate (ctx : Context) : Expression → Option Context
  | .literal v => some v
  | e => ctx.evaluate e

/-- Substring test (`QString::contains`): does `needle` occur contiguously
inside `hay`? -/
def strContainsSub (hay needle : String) : Bool :=
  (List.range (hay.toList.length + 1)).any
    (fun i => needle.toList.isPrefixOf (hay.toList.drop i))

/-- Modelled from the spec: the comparison part of `Condition::evaluate`
(`if.cpp` is not among the provided sources). Operator None is truthiness
of the left side; Equal/NotEqual use `Context::operator==`; the four
orderings compare both sides' `toFloat`; Contains is a substring test for
a String left side and element-equality membership for an Array left side,
false otherwise. A missing right-hand expression reads as Nil. -/
def Condition.compare (ctx : Context) (a : Expression) (op : Operator)
    (b : Option Expression) : Option Bool :=
  let evalB : Option Context :=
    match b with
    | some e => Expression.evaluate ctx e
    | none => some .nil
  match op with
  | .none => (Expression.evaluate ctx a).map Context.isTruthy
  | .equal => do
    let x ← Expression.evaluate ctx a
    let y ← evalB
    pure (Context.ceq x y)
  | .notEqual => do
    let x ← Expression.evaluate ctx a
    let y ← evalB
    pure (!Context.ceq x y)
  | .lessThan => do
    let x ← Expression.evaluate ctx a
    let y ← evalB
    pure (decide (x.toFloat < y.toFloat))
  | .greaterThan => do
    let x ← Expression.evaluate ctx a
    let y ← evalB
    pure (decide (x.toFloat > y.toFloat))
  | .greaterOrEqualThan => do
    let x ← Expression.evaluate ctx a
    let y ← evalB
    pure (decide (x.toFloat ≥ y.toFloat))
  | .lessOrEqualThan => do
    let x ← Expression.evaluate ctx a
    let y ← evalB
    pure (decide (x.toFloat ≤ y.toFloat))
  | .contains => do
    let x ← Expression.evaluate ctx a
    let y ← evalB
    pure (match x with
      | .string s => strContainsSub s y.toString
      | .array elements => elements.any (fun e => Context.ceq e y)
      | _ => false)

/-- Modelled from the spec: `Condition::evaluate` (`if.cpp` is not among
the provided sources). Per the spec's pseudo-code, `result` is this node's
comparison; with a logical continuation, `result = result && child.evaluate`
for And and `result = result || child.evaluate` for Or, where the child
recursively evaluates its own whole chain; C++ `&&`/`||` short-circuiting
is preserved (a skipped child can raise no fault). -/
def Condition.evaluate (ctx : Context) : Condition → Option Bool
  | .mk a op b chain => do
    let result ← Condition.compare ctx a op b
    match chain with
    | Option.none => pure result
    | some (.and, child) =>
      if result then Condition.evaluate ctx child else pure false
    | some (.or, child) =>
      if result then pure true else Condition.evaluate ctx child

/-- An AST node owned by a `BlockBody`. `TextNode` carries its literal
text (per the spec, literal text is emitted verbatim; textnode sources are
not under src/). Object and tag nodes are polymorphic in C++ (virtual
`render`), modelled as a carried render function `Context →
Except String (String × Context)` that may consult and mutate the context
or raise. -/
inductive Node where
  | text (s : String)
  | dynamic (render : Context → Except String (String × Context))

/-- `Node::render` dispatch: a text node renders its text and leaves the
context alone; a dynamic (object/tag) node runs its own render. -/
def Node.renderNode : Node → Context → Except String (String × Context)
  | .text s, c => .ok (s, c)
  | .dynamic f, c => f c

/-- The accumulation loop of `BlockBody::render` (blockbody.cpp lines
56-62): `str += node->render(context)` over the owned nodes in order,
threading the (mutable, by-reference) context; a raise from any node
aborts the whole render. -/
def renderGo : List Node → String → Context → Except String (String × Context)
  | [], acc, c => .ok (acc, c)
  | n :: ns, acc, c =>
    match n.renderNode c with
    | .error e => .error e
    | .ok (s, c2) => renderGo ns (acc ++ s) c2

/-- `BlockBody::render`: start from the empty string and concatenate each
owned node's rendered text in document order. -/
def renderBody (nodes : List Node) (c : Context) : Except String (String × Context) :=
  renderGo nodes "" c

/-- One lexical unit of the outer scan, mirroring `Component` as consumed
by `BlockBody::parse`. The Tag case carries the leading Id of its markup
(the tag name) pre-split from the rest: in blockbody.cpp the name is
consumed from the inner text by `parser.consume(Token::Type::Id)`, whose
markup-parser source is not under src/. -/
inductive Component where
  | text (s : String)
  | object (innerText : String)
  | tag (name : String) (markup : String)

/-- The outcome of the tag-name dispatch in `BlockBody::parse`
(blockbody.cpp lines 31-48): the if/else-if chain over the tag name. -/
inductive TagDispatch where
  | assignTag
  | commentTag
  | captureTag
  | incrementTag
  | decrementTag
  | unknownTag
deriving DecidableEq, Repr

/-- The tag-name if/else-if chain of `BlockBody::parse` (blockbody.cpp
lines 31-48), in source order. -/
def dispatchTag (tagName : String) : TagDispatch :=
  if tagName == "assign" then .assignTag
  else if tagName == "comment" then .commentTag
  else if tagName == "capture" then .captureTag
  else if tagName == "increment" then .incrementTag
  else if tagName == "decrement" then .decrementTag
  else .unknownTag

/-- `BlockBody::defaultUnknownTagHandler` (blockbody.cpp lines 10-15): a
null tag name (the end-of-input sentinel, modelled as `Option.none`) is a
no-op; any real tag name throws `Unknown tag '<name>'`. -/
def defaultUnknownTagHandler : Option String → Except String Unit
  | Option.none => .ok ()
  | some name => .error ("Unknown tag \x27" ++ name ++ "\x27")

/-- The environment of collaborator tags whose constructors and `parse`
methods blockbody.cpp calls but whose sources (assign.hpp, comment.hpp,
capture.hpp, increment.hpp, decrement.hpp) are not under src/ and are out
of the spec's scope: node constructors from the remaining markup, and, for
the two block-style tags comment and capture, the `tag->parse(tokenizer)`
call that consumes further components from the shared stream (bounded by
the stream: a tokenizer only ever consumes). -/
structure TagEnv where
  mkObject : String → Node
  mkAssign : String → Node
  mkComment : String → Node
  mkCapture : String → Node
  mkIncrement : String → Node
  mkDecrement : String → Node
  commentConsume : List Component → Except String (List Component)
  captureConsume : List Component → Except String (List Component)
  commentConsume_le : ∀ l r, commentConsume l = .ok r → r.length ≤ l.length
  captureConsume_le : ∀ l r, captureConsume l = .ok r → r.length ≤ l.length

/-- The parse loop of `BlockBody::parse` (blockbody.cpp lines 17-54) over
a component stream: text and object components append nodes; a tag
component is dispatched on its name, the recognized names appending their
tag's node (comment and capture additionally letting the tag consume the
stream up to its own terminator); an unrecognized name invokes the unknown
tag handler and, if the handler returns instead of throwing, parsing stops
with the nodes built so far; an exhausted stream invokes the handler with
the null-name sentinel and, if it returns, parsing ends normally. -/
def parseGo (env : TagEnv) (handler : Option String → Except String Unit) :
    List Component → Except String (List Node)
  | [] => do
    let _ ← handler Option.none
    pure []
  | comp :: rest =>
    match comp with
    | .text s => do
      pure (Node.text s :: (← parseGo env handler rest))
    | .object innerText => do
      pure (env.mkObject innerText :: (← parseGo env handler rest))
    | .tag name markup =>
      match dispatchTag name with
      | .assignTag => do
        pure (env.mkAssign markup :: (← parseGo env handler rest))
      | .commentTag =>
        match h : env.commentConsume rest with
        | .error e => .error e
        | .ok rest2 => do
          pure (env.mkComment markup :: (← parseGo env handler rest2))
      | .captureTag =>
        match h : env.captureConsume rest with
        | .error e => .error e
        | .ok rest2 => do
          pure (env.mkCapture markup :: (← parseGo env handler rest2))
      | .incrementTag => do
        pure (env.mkIncrement markup :: (← parseGo env handler rest))
      | .decrementTag => do
        pure (env.mkDecrement markup :: (← parseGo env handler rest))
      | .unknownTag => do
        let _ ← handler (some name)
        pure []
termination_by comps => comps.length
decreasing_by
  all_goals simp_wf
  · exact Nat.lt_succ_of_le (env.commentConsume_le _ _ h)
  · exact Nat.lt_succ_of_le (env.captureConsume_le _ _ h)

/-- `IfBlock` (if.hpp lines 64-70): one branch of the conditional block
tag, owning a body, a condition, and the else flag. -/
structure IfBlock where
  body : List Node
  cond : Condition
  isElse : Bool

/-- Modelled from the spec: `IfTag::render` (`if.cpp` is not among the
provided sources). Branch conditions are evaluated in declaration order;
the body of the first branch whose condition holds (an else branch holds
unconditionally) is rendered; nothing is rendered when no branch matches.
A structural evaluation fault inside a condition aborts the render. -/
def ifTagRender (ctx : Context) : List IfBlock → Except String (String × Context)
  | [] => .ok ("", ctx)
  | blk :: rest =>
    if blk.isElse then renderBody blk.body ctx
    else
      match Condition.evaluate ctx blk.cond with
      | Option.none => .error "Can\x27t evaluate expression"
      | some true => renderBody blk.body ctx
      | some false => ifTagRender ctx rest

/-- A concrete collaborator-tag environment for instantiating theorems
about the parse loop: every constructor keeps the raw markup as a text
node and the two block tags consume nothing further. -/
def trivialEnv : TagEnv where
  mkObject := Node.text
  mkAssign := Node.text
  mkComment := Node.text
  mkCapture := Node.text
  mkIncrement := Node.text
  mkDecrement := Node.text
  commentConsume := fun l => .ok l
  captureConsume := fun l => .ok l
  commentConsume_le := by
    intro l r h
    injection h with h2
    exact h2 ▸ Nat.le_refl _
  captureConsume_le := by
    intro l r h
    injection h with h2
    exact h2 ▸ Nat.le_refl _

/-- The spec-side description of a well-formed parsed expression: any
Literal or LookupKey, or a Lookup whose children satisfy the grammar's
shape invariant. -/
def wellFormedExpr : Expression → Bool
  | .lookup children => Expression.shapedList children
  | _ => true

mutual

/-- `Context::evaluate` never raises on a lookup-shaped expression: every
LookupKey or shape-invariant Lookup evaluates to some value on every
receiver. -/
theorem evaluate_shaped_total (c : Context) (e : Expression)
    (h : e.shaped = true) : ∃ v, c.evaluate e = some v := by
  match e with
  | .literal v => simp [Expression.shaped] at h
  | .lookupKey key =>
    cases c with
    | hash entries =>
      simp only [Context.evaluate]
      cases hashFind entries key with
      | some v => exact ⟨v, rfl⟩
      | none => exact ⟨.nil, rfl⟩
    | nil => exact ⟨.nil, rfl⟩
    | boolTrue => exact ⟨.nil, rfl⟩
    | boolFalse => exact ⟨.nil, rfl⟩
    | numberInt i => exact ⟨.nil, rfl⟩
    | numberFloat f => exact ⟨.nil, rfl⟩
    | string s => exact ⟨.nil, rfl⟩
    | array elements => exact ⟨.nil, rfl⟩
  | .lookup children =>
    exact evalSteps_shaped_total c children (by simpa [Expression.shaped] using h)

/-- The child walk of `Context::evaluate` never raises when every child is
lookup-shaped. -/
theorem evalSteps_shaped_total (c : Context) (xs : List Expression)
    (h : Expression.shapedList xs = true) : ∃ v, c.evalSteps xs = some v := by
  match xs with
  | [] => exact ⟨c, rfl⟩
  | x :: rest =>
    have hx : x.shaped = true := by
      have := h
      simp [Expression.shapedList, Bool.and_eq_true] at this
      exact this.1
    have hrest : Expression.shapedList rest = true := by
      have := h
      simp [Expression.shapedList, Bool.and_eq_true] at this
      exact this.2
    obtain ⟨v, hv⟩ := evaluate_shaped_total c x hx
    by_cases hn : v.isNil = true
    · exact ⟨v, by simp [Context.evalSteps, hv, hn]⟩
    · obtain ⟨w, hw⟩ := evalSteps_shaped_total v rest hrest
      exact ⟨w, by simp [Context.evalSteps, hv, hn, hw]⟩

end

/-- Sequential concatenation of a list of strings, the reference shape for
`BlockBody::render`'s output. -/
def strConcat : List String → String
  | [] => ""
  | s :: rest => s ++ strConcat rest

/-- The accumulator of the render loop only ever prefixes the remaining
output: running `renderGo` from `acc` equals running it from the empty
string and prefixing `acc` to the resulting text. -/
theorem renderGo_acc (ns : List Node) (acc : String) (c : Context) :
    renderGo ns acc c = (renderGo ns "" c).map (fun p => (acc ++ p.1, p.2)) := by
  induction ns generalizing acc c with
  | nil => simp [renderGo, Except.map, String.append_empty]
  | cons n ns ih =>
    simp only [renderGo]
    cases n.renderNode c with
    | error e => rfl
    | ok p =>
      obtain ⟨s, c2⟩ := p
      show renderGo ns (acc ++ s) c2 = (renderGo ns s c2).map fun p => (acc ++ p.1, p.2)
      rw [ih (acc ++ s) c2, ih s c2]
      cases renderGo ns "" c2 with
      | error e => rfl
      | ok p => simp [Except.map, String.append_assoc]

/-- C3: `Context::evaluate` on a lookup-shaped expression never faults on
missing data: it always returns some value; a LookupKey step on a non-Hash
receiver yields Nil; an absent key in a Hash yields Nil (so in particular
any subscript step against an Array receiver yields Nil, the code having
no in-range array-index path at all); and a Lookup short-circuits to Nil
as soon as its first step yields Nil. -/
theorem evaluate_missing_data_yields_nil (c : Context) (e : Expression)
    (hs : e.shaped = true) :
    (∃ v, c.evaluate e = some v) ∧
    (∀ key, e = .lookupKey key → c.isHash = false → c.evaluate e = some .nil) ∧
    (∀ key entries, e = .lookupKey key → c = .hash entries →
      hashFind entries key = Option.none → c.evaluate e = some .nil) ∧
    (∀ x rest, e = .lookup (x :: rest) → c.evaluate x = some .nil →
      c.evaluate e = some .nil) := by
  refine ⟨evaluate_shaped_total c e hs, ?_, ?_, ?_⟩
  · intro key he hc
    subst he
    cases c with
    | hash entries => simp [Context.isHash, Context.typeOf] at hc
    | nil => rfl
    | boolTrue => rfl
    | boolFalse => rfl
    | numberInt i => rfl
    | numberFloat f => rfl
    | string s => rfl
    | array elements => rfl
  · intro key entries he hc hfind
    subst he
    subst hc
    simp [Context.evaluate, hfind]
  · intro x rest he hx
    subst he
    simp [Context.evaluate, Context.evalSteps, hx, Context.isNil, Context.typeOf]

/-- Witness for C3: looking up the path `a.b` in an empty hash misses at
the first step and resolves to Nil without faulting. -/
theorem evaluate_missing_data_yields_nil_witness :
    (Context.hash []).evaluate (.lookup [.lookupKey "a", .lookupKey "b"]) =
      some .nil :=
  (evaluate_missing_data_yields_nil (Context.hash [])
      (.lookup [.lookupKey "a", .lookupKey "b"]) rfl).2.2.2
    (.lookupKey "a") [.lookupKey "b"] rfl rfl

/-- C4: `Context::operator==` compares only within the same variant: two
values with different variant tags are never equal. -/
theorem ceq_cross_variant_false (a b : Context) (h : a.typeOf ≠ b.typeOf) :
    Context.ceq a b = false := by
  cases a <;> cases b <;> first | exact absurd rfl h | rfl

/-- Witness for C4: `NumberInt 1` and `NumberFloat 1` hold the same
numeric value but compare unequal. -/
theorem ceq_cross_variant_false_witness :
    Context.ceq (.numberInt 1) (.numberFloat 1) = false :=
  ceq_cross_variant_false (.numberInt 1) (.numberFloat 1) (by decide)

/-- C5: on grammar-produced expressions, `Context::evaluate` raises
exactly when the argument is neither a Lookup nor a LookupKey (i.e. a bare
Literal); every Lookup or LookupKey evaluates to some value. -/
theorem evaluate_faults_iff_not_lookup (c : Context) (e : Expression)
    (hw : wellFormedExpr e = true) :
    c.evaluate e = Option.none ↔ (e.isLookup = false ∧ e.isLookupKey = false) := by
  cases e with
  | literal v =>
    simp [Context.evaluate, Expression.isLookup, Expression.isLookupKey]
  | lookupKey key =>
    obtain ⟨v, hv⟩ := evaluate_shaped_total c (.lookupKey key) rfl
    simp [hv, Expression.isLookupKey]
  | lookup children =>
    obtain ⟨v, hv⟩ := evaluate_shaped_total c (.lookup children)
      (by simpa [Expression.shaped, wellFormedExpr] using hw)
    simp [hv, Expression.isLookup]

/-- Witness for C5: evaluating a bare Literal faults, while evaluating a
Lookup on the very same context does not. -/
theorem evaluate_faults_iff_not_lookup_witness :
    Context.nil.evaluate (.literal .boolTrue) = Option.none ∧
    ¬ Context.nil.evaluate (.lookup [.lookupKey "a"]) = Option.none :=
  ⟨(evaluate_faults_iff_not_lookup Context.nil (.literal .boolTrue) rfl).mpr
      ⟨rfl, rfl⟩,
    fun h =>
      by simpa [Expression.isLookup] using
        (evaluate_faults_iff_not_lookup Context.nil (.lookup [.lookupKey "a"]) rfl).mp h⟩

/-- C6: `Context::isTruthy` is false exactly on the Nil and BooleanFalse
variants; in particular integer 0, the empty string, the empty array and
the empty hash are all truthy. -/
theorem isTruthy_false_iff_nil_or_false :
    (∀ c : Context, c.isTruthy = false ↔ (c = .nil ∨ c = .boolFalse)) ∧
    Context.isTruthy (.numberInt 0) = true ∧
    Context.isTruthy (.string "") = true ∧
    Context.isTruthy (.array []) = true ∧
    Context.isTruthy (.hash []) = true := by
  refine ⟨fun c => ?_, rfl, rfl, rfl, rfl⟩
  cases c <;> simp [Context.isTruthy]

/-- C8: `BlockBody::render` concatenates each owned node's rendered text
in document order with no separators: the rendering of `n :: ns` is the
rendering of `n` followed by the rendering of `ns` from the threaded
context, and a body of literal text nodes renders to exactly the
concatenation of their texts against any context. -/
theorem render_concatenates_in_order :
    (∀ (n : Node) (ns : List Node) (c : Context) (s : String) (c2 : Context)
        (rest : String) (c3 : Context),
      n.renderNode c = .ok (s, c2) → renderBody ns c2 = .ok (rest, c3) →
      renderBody (n :: ns) c = .ok (s ++ rest, c3)) ∧
    (∀ (ts : List String) (c : Context),
      renderBody (ts.map Node.text) c = .ok (strConcat ts, c)) := by
  constructor
  · intro n ns c s c2 rest c3 hn hns
    show renderGo (n :: ns) "" c = .ok (s ++ rest, c3)
    simp only [renderGo, hn]
    show renderGo ns s c2 = .ok (s ++ rest, c3)
    rw [renderGo_acc ns s c2]
    rw [show renderGo ns "" c2 = .ok (rest, c3) from hns]
    rfl
  · intro ts
    induction ts with
    | nil => intro c; rfl
    | cons t rest ih =>
      intro c
      show renderGo (Node.text t :: rest.map Node.text) "" c = _
      simp only [renderGo, Node.renderNode]
      show renderGo (rest.map Node.text) t c = _
      rw [renderGo_acc]
      rw [show renderGo (rest.map Node.text) "" c = Except.ok (strConcat rest, c) from ih c]
      rfl

/-- Witness for C8: rendering a two-node body of the texts `"ab"` and
`"cd"` yields `"abcd"` with the context untouched. -/
theorem render_concatenates_in_order_witness :
    renderBody [Node.text "ab", Node.text "cd"] Context.nil =
      .ok ("ab" ++ "cd", Context.nil) :=
  render_concatenates_in_order.1 (Node.text "ab") [Node.text "cd"]
    Context.nil "ab" Context.nil "cd" Context.nil rfl
    (render_concatenates_in_order.2 ["cd"] Context.nil)

/-- C9: rendering is deterministic in its inputs: the same node sequence
rendered against equal context values produces identical results (hence
identical output text on repeated renders of the same immutable AST). -/
theorem render_deterministic (ns : List Node) (c1 c2 : Context) (h : c1 = c2) :
    renderBody ns c1 = renderBody ns c2 := by
  rw [h]

/-- Witness for C9: two renders of the same one-node body against the Nil
context agree. -/
theorem render_deterministic_witness :
    renderBody [Node.text "x"] Context.nil = renderBody [Node.text "x"] Context.nil :=
  render_deterministic [Node.text "x"] Context.nil Context.nil rfl

/-- C10: `Context::push_back` on a non-Array value is a silent no-op: the
value is returned entirely unchanged, hence all observables (variant tag,
`toString`, `size`, equality, `evaluate`) are unchanged as well. -/
theorem push_back_non_array_noop (c v : Context) (h : c.typeOf ≠ .array) :
    c.push_back v = c ∧
    (c.push_back v).typeOf = c.typeOf ∧
    (c.push_back v).toString = c.toString ∧
    (c.push_back v).size = c.size ∧
    (∀ d, Context.ceq (c.push_back v) d = Context.ceq c d) ∧
    (∀ e, (c.push_back v).evaluate e = c.evaluate e) := by
  have heq : c.push_back v = c := by
    cases c <;> first | exact absurd rfl h | rfl
  exact ⟨heq, by rw [heq], by rw [heq], by rw [heq],
    fun d => by rw [heq], fun e => by rw [heq]⟩

/-- Witness for C10: pushing onto a String value changes nothing. -/
theorem push_back_non_array_noop_witness :
    (Context.string "a").push_back (.numberInt 1) = Context.string "a" :=
  (push_back_non_array_noop (Context.string "a") (.numberInt 1) (by decide)).1

/-- C2: the tag dispatch of `BlockBody::parse` does NOT recognize `if`:
the name `if` falls through to the unknown-tag handler (at top level the
default handler, which throws `Unknown tag 'if'`), and the names the
dispatch does recognize are exactly assign, comment, capture, increment
and decrement, case-sensitively. -/
theorem dispatch_if_not_recognized :
    dispatchTag "if" = TagDispatch.unknownTag ∧
    defaultUnknownTagHandler (some "if") = .error ("Unknown tag \x27if\x27") ∧
    (∀ name, dispatchTag name ≠ TagDispatch.unknownTag ↔
      (name = "assign" ∨ name = "comment" ∨ name = "capture" ∨
        name = "increment" ∨ name = "decrement")) := by
  refine ⟨rfl, rfl, fun name => ?_⟩
  simp only [dispatchTag, beq_iff_eq]
  split_ifs with h1 h2 h3 h4 h5 <;> simp_all

/-- C7: at the top level, exhausting the input invokes the unknown-tag
handler with the sentinel null (None) tag name, on which the default
handler is a no-op so parsing terminates normally; whereas a real
unrecognized tag name reaching the default handler faults with a message
naming the offending tag. -/
theorem parse_end_sentinel_noop_unknown_faults :
    (defaultUnknownTagHandler Option.none = .ok ()) ∧
    (∀ name, ∃ pre post, defaultUnknownTagHandler (some name) =
      .error (pre ++ name ++ post)) ∧
    (∀ (env : TagEnv) (handler : Option String → Except String Unit),
      parseGo env handler [] = (handler Option.none).map (fun _ => [])) ∧
    (∀ env : TagEnv, parseGo env defaultUnknownTagHandler [] = .ok []) ∧
    (∀ (env : TagEnv) (name markup : String) (rest : List Component),
      dispatchTag name = TagDispatch.unknownTag →
      parseGo env defaultUnknownTagHandler (Component.tag name markup :: rest) =
        .error ("Unknown tag \x27" ++ name ++ "\x27")) := by
  refine ⟨rfl, fun name => ⟨"Unknown tag \x27", "\x27", rfl⟩, ?_, ?_, ?_⟩
  · intro env handler
    rw [parseGo]
    cases handler Option.none with
    | error e => rfl
    | ok u => rfl
  · intro env
    rw [parseGo]
    rfl
  · intro env name markup rest h
    rw [parseGo]
    simp only [h]
    rfl

/-- Witness for C7: an empty stream parses to no nodes without fault, and
a lone bogus tag faults naming it. -/
theorem parse_end_sentinel_noop_unknown_faults_witness :
    parseGo trivialEnv defaultUnknownTagHandler [] = .ok [] ∧
    parseGo trivialEnv defaultUnknownTagHandler [Component.tag "bogus" ""] =
      .error ("Unknown tag \x27" ++ "bogus" ++ "\x27") :=
  ⟨parse_end_sentinel_noop_unknown_faults.2.2.2.1 trivialEnv,
    parse_end_sentinel_noop_unknown_faults.2.2.2.2 trivialEnv "bogus" "" [] rfl⟩

/-- Truth table of one logical operator, for stating chain results. -/
def logApply : LogicalOperator → Bool → Bool → Bool
  | .and, x, y => x && y
  | .or, x, y => x || y

/-- The condition chain parsed from `true or false and false`: the head
node holds the comparison `true`, and `setLogicalCondition` hangs the
remainder `false and false` off it as a child, which in turn hangs its own
child `false`. -/
def chainTrueOrFalseAndFalse : Condition :=
  (Condition.mk (.literal .boolTrue) .none Option.none Option.none).setLogicalCondition
    .or
    ((Condition.mk (.literal .boolFalse) .none Option.none Option.none).setLogicalCondition
      .and
      (Condition.mk (.literal .boolFalse) .none Option.none Option.none))

/-- A placeholder condition for an else branch (whose condition is never
read). -/
def elseCond : Condition := Condition.mk (.literal .nil) .none Option.none Option.none

/-- Counterexample to C1: the chain `true or false and false` evaluates to
true, not false, and the template `{% if true or false and false %}T{%
else %}F{% endif %}` therefore renders `"T"`, not the claimed `"F"`. -/
theorem condition_chain_left_to_right_counterexample :
    Condition.evaluate Context.nil chainTrueOrFalseAndFalse = some true ∧
    Condition.evaluate Context.nil chainTrueOrFalseAndFalse ≠ some false ∧
    ifTagRender Context.nil
      [⟨[Node.text "T"], chainTrueOrFalseAndFalse, false⟩,
        ⟨[Node.text "F"], elseCond, true⟩] = .ok ("T", Context.nil) :=
  ⟨rfl, by decide, rfl⟩

/-- C1 amended: logical chaining combines each comparison with the full
evaluation of its child chain (`result = cmp; And: result && child;
Or: result || child`), which groups to the right: a three-comparison chain
`c1 l1 c2 l2 c3` evaluates to `c1 l1 (c2 l2 c3)`, so `true or false and
false` is `true or (false and false) = true` and the template renders
`"T"`. -/
theorem condition_chain_groups_right (ctx : Context) (e1 e2 e3 : Expression)
    (l1 l2 : LogicalOperator) (b1 b2 b3 : Bool)
    (h1 : (Expression.evaluate ctx e1).map Context.isTruthy = some b1)
    (h2 : (Expression.evaluate ctx e2).map Context.isTruthy = some b2)
    (h3 : (Expression.evaluate ctx e3).map Context.isTruthy = some b3) :
    Condition.evaluate ctx
      (.mk e1 .none Option.none (some (l1,
        .mk e2 .none Option.none (some (l2,
          .mk e3 .none Option.none Option.none))))) =
      some (logApply l1 b1 (logApply l2 b2 b3)) := by
  simp only [Condition.evaluate, Condition.compare, h1, h2, h3,
    Option.bind_some, Option.bind_eq_bind]
  cases l1 <;> cases l2 <;> cases b1 <;> cases b2 <;> cases b3 <;>
    simp [logApply, Condition.evaluate, Condition.compare, h1, h2, h3]

/-- Witness for C1's amended theorem: instantiating at the literals of
`true or false and false` yields `true or (false and false) = true`. -/
theorem condition_chain_groups_right_witness :
    Condition.evaluate Context.nil
      (.mk (.literal .boolTrue) .none Option.none (some (.or,
        .mk (.literal .boolFalse) .none Option.none (some (.and,
          .mk (.literal .boolFalse) .none Option.none Option.none))))) =
      some (logApply .or true (logApply .and false false)) :=
  condition_chain_groups_right Context.nil (.literal .boolTrue)
    (.literal .boolFalse) (.literal .boolFalse) .or .and true false false
    rfl rfl rfl

end Liquid
